import Mathlib

/-!
Verification of the `uuid` package (`uuid.go`).

A shallow embedding of the Go package `uuid`: the type `UUID`, the operations
`NewUUID`, `UUID.String` and `ParseUUID`, the error constants, and the pieces
of the Go standard library they call (`encoding/hex`, `strings.ReplaceAll`,
the `range` loop over a string, `fmt.Errorf`, `errors.Is`).

Conventions.
* A Go `byte` is a `Fin 256`; the bit operations of `Fin` reduce modulo 256,
  as `uint8` arithmetic does.
* A Go `string` is a finite sequence of bytes (`GoString`); `len` is the
  number of bytes.  A string literal of the source is written `lit "..."`.
* A Go `rune` is a natural number (all runes produced here are at most
  `0x10FFFF`, or `0xFFFD` for a decoding error).
* A function returning `(UUID, error)` returns a pair whose second component
  is `none` for the `nil` error.
-/

namespace UUIDSpec

/-! ## Bytes, strings, runes -/

/-- A Go `byte` (`uint8`). -/
abbrev Byte := Fin 256

/-- A Go `string`: an immutable sequence of bytes. -/
abbrev GoString := List Byte

/-- The bytes of an ASCII source literal.  Every literal of `uuid.go` and of
its tests is ASCII, where the UTF-8 encoding of a character is the single byte
of its code point. -/
def lit (s : String) : GoString := s.data.map (fun c => Fin.ofNat c.toNat)

/-- Go `len(s)` for a string. -/
def len (s : GoString) : Nat := s.length

/-! ## Errors: `type Error string`, `fmt.Errorf`, `errors.Is` -/

/-- Go error values occurring in the package.
* `sentinel m` is the value `uuid.Error(m)`;
* `invalidByte b` is `hex.InvalidByteError(b)`, `hexLength` is `hex.ErrLength`;
* `foreign m` is an error of another package with message `m` (a failure of
  the random source);
* `wrapError m e` is the `*fmt.wrapError` built by `fmt.Errorf` with one `%w`
  verb, `wrapErrors m e₁ e₂` the `*fmt.wrapErrors` built with two. -/
inductive GoError where
  | sentinel (msg : String)
  | invalidByte (b : Byte)
  | hexLength
  | foreign (msg : String)
  | wrapError (msg : String) (err : GoError)
  | wrapErrors (msg : String) (err₁ err₂ : GoError)
  deriving DecidableEq, Repr

def ErrFailedToGenerateUUID : GoError := .sentinel "failed to generate UUID"
def ErrInvalidUUIDFormat : GoError := .sentinel "invalid UUID format"
def ErrInvalidUUIDLength : GoError := .sentinel "invalid UUID length"
def ErrInvalidUUIDHex : GoError := .sentinel "invalid UUID hex character"
def ErrFailedToDecodeUUID : GoError := .sentinel "failed to decode UUID"

/-- The method `Error() string`.  For `uuid.Error` it is `string(e)`
(`uuid.go`, line 12); for the wrappers it is the formatted message. -/
def GoError.Error : GoError → String
  | .sentinel m => m
  | .invalidByte b => "encoding/hex: invalid byte: " ++ toString b.val
  | .hexLength => "encoding/hex: odd length hex string"
  | .foreign m => m
  | .wrapError m _ => m
  | .wrapErrors m _ _ => m

/-- `fmt.Errorf("%w: %v", a, b)`: the message joins both texts, only `a` is
wrapped. -/
def errorfWV (a b : GoError) : GoError :=
  .wrapError (a.Error ++ ": " ++ b.Error) a

/-- `fmt.Errorf("%w: %w", a, b)`: the message joins both texts, both operands
are wrapped. -/
def errorfWW (a b : GoError) : GoError :=
  .wrapErrors (a.Error ++ ": " ++ b.Error) a b

/-- The loop of `errors.Is` on a non-nil error and a non-nil target: the
error equals the target, or some error of its `Unwrap` tree does (depth
first).  Wrapper values are compared by structure; the targets used below are
values of the string type `uuid.Error`, for which Go's `==` is equality of
the strings. -/
def GoError.is : GoError → GoError → Bool
  | .wrapError m e, t => decide (GoError.wrapError m e = t) || e.is t
  | .wrapErrors m e₁ e₂, t =>
      decide (GoError.wrapErrors m e₁ e₂ = t) || e₁.is t || e₂.is t
  | e, t => decide (e = t)

/-- `errors.Is(err, target)`, where `none` is `nil`: when either side is
`nil` the result is `err == target`. -/
def errorsIs (err target : Option GoError) : Bool :=
  match err, target with
  | some e, some t => e.is t
  | none, none => true
  | _, _ => false

/-! ## `encoding/hex` -/

/-- `hex.hextable = "0123456789abcdef"`. -/
def hextable : GoString := lit "0123456789abcdef"

/-- Indexing a string, `s[i]` (the index is in range wherever it is used). -/
def byteAt (s : GoString) (i : Nat) : Byte := s.getD i 0

/-- `hex.EncodeToString(src)`: for each byte `v` the two characters
`hextable[v>>4]`, `hextable[v&0x0f]`. -/
def EncodeToString : List Byte → GoString
  | [] => []
  | v :: rest =>
      byteAt hextable (v >>> 4).val :: byteAt hextable (v &&& 0x0f).val :: EncodeToString rest

/-- `hex.reverseHexTable`: the value of a hex digit, `0xff` for any other
byte (a 256-byte table in the source, one row per 16 bytes). -/
def reverseHexTable : List Byte :=
  [0xff, 0xff, 0xff, 0xff, 0xff, 0xff, 0xff, 0xff, 0xff, 0xff, 0xff, 0xff, 0xff, 0xff, 0xff, 0xff,
   0xff, 0xff, 0xff, 0xff, 0xff, 0xff, 0xff, 0xff, 0xff, 0xff, 0xff, 0xff, 0xff, 0xff, 0xff, 0xff,
   0xff, 0xff, 0xff, 0xff, 0xff, 0xff, 0xff, 0xff, 0xff, 0xff, 0xff, 0xff, 0xff, 0xff, 0xff, 0xff,
   0x00, 0x01, 0x02, 0x03, 0x04, 0x05, 0x06, 0x07, 0x08, 0x09, 0xff, 0xff, 0xff, 0xff, 0xff, 0xff,
   0xff, 0x0a, 0x0b, 0x0c, 0x0d, 0x0e, 0x0f, 0xff, 0xff, 0xff, 0xff, 0xff, 0xff, 0xff, 0xff, 0xff,
   0xff, 0xff, 0xff, 0xff, 0xff, 0xff, 0xff, 0xff, 0xff, 0xff, 0xff, 0xff, 0xff, 0xff, 0xff, 0xff,
   0xff, 0x0a, 0x0b, 0x0c, 0x0d, 0x0e, 0x0f, 0xff, 0xff, 0xff, 0xff, 0xff, 0xff, 0xff, 0xff, 0xff,
   0xff, 0xff, 0xff, 0xff, 0xff, 0xff, 0xff, 0xff, 0xff, 0xff, 0xff, 0xff, 0xff, 0xff, 0xff, 0xff]
  ++ List.replicate 128 0xff

/-- `hex.Decode(src, src)` as called by `hex.DecodeString`: the bytes decoded
before the first problem, and the error.  Two characters `p`, `q` give the
byte `(a << 4) | b`; a character outside the table fails with
`InvalidByteError`, a trailing single character with `ErrLength` (after the
check that it is a hex digit). -/
def Decode : List Byte → List Byte × Option GoError
  | [] => ([], none)
  | [p] =>
      if byteAt reverseHexTable p.val > 0x0f then ([], some (.invalidByte p))
      else ([], some .hexLength)
  | p :: q :: rest =>
      let a := byteAt reverseHexTable p.val
      let b := byteAt reverseHexTable q.val
      if a > 0x0f then ([], some (.invalidByte p))
      else if b > 0x0f then ([], some (.invalidByte q))
      else (((a <<< 4) ||| b) :: (Decode rest).1, (Decode rest).2)

/-- `hex.DecodeString(s)`: `src := []byte(s); n, err := Decode(src, src);
return src[:n], err`. -/
def DecodeString (s : GoString) : List Byte × Option GoError := Decode s

/-! ## `strings.ReplaceAll` and the `range` loop over a string -/

/-- `strings.ReplaceAll(s, old, new)` for a one-byte `old`: every occurrence
of that byte is replaced by `new`. -/
def ReplaceAll (s : GoString) (old : Byte) (new : GoString) : GoString :=
  match s with
  | [] => []
  | b :: rest => (if b = old then new else [b]) ++ ReplaceAll rest old new

/-- The rune `utf8.RuneError`, U+FFFD. -/
def runeError : Nat := 0xFFFD

/-- `runtime.decoderune(s, k)` on `s[k:]`, a string whose first byte is at
least `0x80`: the rune and the number of bytes it takes.  A two, three or
four byte sequence is accepted when its continuation bytes are in
`0x80..0xBF` and the rune is not overlong, not a surrogate and at most
`0x10FFFF`; anything else is `runeError` of width one. -/
def decoderune (s : GoString) : Nat × Nat :=
  match s with
  | [] => (runeError, 1)
  | s0 :: t =>
    if 0xC0 ≤ s0 ∧ s0 < 0xE0 then
      match t with
      | s1 :: _ =>
        if 0x80 ≤ s1 ∧ s1 ≤ 0xBF then
          let r : Nat := ((s0 &&& 0x1F).val <<< 6) ||| (s1 &&& 0x3F).val
          if 0x7F < r then (r, 2) else (runeError, 1)
        else (runeError, 1)
      | _ => (runeError, 1)
    else if 0xE0 ≤ s0 ∧ s0 < 0xF0 then
      match t with
      | s1 :: s2 :: _ =>
        if (0x80 ≤ s1 ∧ s1 ≤ 0xBF) ∧ (0x80 ≤ s2 ∧ s2 ≤ 0xBF) then
          let r : Nat :=
            ((s0 &&& 0x0F).val <<< 12) ||| ((s1 &&& 0x3F).val <<< 6) ||| (s2 &&& 0x3F).val
          if 0x7FF < r ∧ ¬ (0xD800 ≤ r ∧ r ≤ 0xDFFF) then (r, 3) else (runeError, 1)
        else (runeError, 1)
      | _ => (runeError, 1)
    else if 0xF0 ≤ s0 ∧ s0 < 0xF8 then
      match t with
      | s1 :: s2 :: s3 :: _ =>
        if (0x80 ≤ s1 ∧ s1 ≤ 0xBF) ∧ (0x80 ≤ s2 ∧ s2 ≤ 0xBF) ∧ (0x80 ≤ s3 ∧ s3 ≤ 0xBF) then
          let r : Nat :=
            ((s0 &&& 0x07).val <<< 18) ||| ((s1 &&& 0x3F).val <<< 12)
              ||| ((s2 &&& 0x3F).val <<< 6) ||| (s3 &&& 0x3F).val
          if 0xFFFF < r ∧ r ≤ 0x10FFFF then (r, 4) else (runeError, 1)
        else (runeError, 1)
      | _ => (runeError, 1)
    else (runeError, 1)

/-- The runes a loop `for _, r := range s` visits, in order.  `skip` counts
the bytes of the previous rune still to pass over (the loop starts with
`skip = 0`).  A byte below `0x80` is its own rune; otherwise `decoderune`
gives the rune and its width. -/
def rangeRunes : Nat → GoString → List Nat
  | _, [] => []
  | skip + 1, _ :: rest => rangeRunes skip rest
  | 0, b :: rest =>
      if b < 0x80 then b.val :: rangeRunes 0 rest
      else (decoderune (b :: rest)).1 :: rangeRunes ((decoderune (b :: rest)).2 - 1) rest

/-- The condition of line 67 of `uuid.go`:
`(r >= '0' && r <= '9') || (r >= 'a' && r <= 'f') || (r >= 'A' && r <= 'F')`. -/
def isHexRune (r : Nat) : Bool :=
  (decide (r ≥ 0x30) && decide (r ≤ 0x39)) || (decide (r ≥ 0x61) && decide (r ≤ 0x66))
    || (decide (r ≥ 0x41) && decide (r ≤ 0x46))

/-! ## The package: `UUID`, `NewUUID`, `String`, `ParseUUID` -/

/-- `type UUID [16]byte`. -/
structure UUID where
  bytes : List Byte
  size : bytes.length = 16
  deriving DecidableEq

/-- The zero value `var g UUID`. -/
def UUID.zero : UUID := ⟨List.replicate 16 0, by simp⟩

/-- Reading an element, `g[i]`. -/
def UUID.get (g : UUID) (i : Nat) : Byte := byteAt g.bytes i

/-- Assigning an element, `g[i] = b`. -/
def UUID.set (g : UUID) (i : Nat) (b : Byte) : UUID :=
  ⟨g.bytes.set i b, by simp [g.size]⟩

/-- A slice expression `g[lo:hi]`. -/
def slice (l : List Byte) (lo hi : Nat) : List Byte := (l.take hi).drop lo

/-- `copy(dst[:], src)` into an array: the first `min(16, len(src))` bytes of
`dst` are overwritten. -/
def UUID.copy (dst : UUID) (src : List Byte) : UUID :=
  ⟨src.take 16 ++ dst.bytes.drop src.length, by
    have := dst.size
    simp only [List.length_append, List.length_take, List.length_drop]
    omega⟩

/-- The outcome of `rand.Read(g[:])`: the content of the buffer afterwards and
the error (`none` for `nil`). -/
structure RandRead where
  buf : UUID
  err : Option GoError

/-- `NewUUID` (`uuid.go`, lines 31-42), as a function of what the random
source did. -/
def NewUUID (rd : RandRead) : UUID × Option GoError :=
  let g := rd.buf
  match rd.err with
  | some err => (g, some (errorfWV ErrFailedToGenerateUUID err))
  | none =>
    let g := g.set 6 ((g.get 6 &&& 0x0f) ||| 0x40)
    let g := g.set 8 ((g.get 8 &&& 0x3f) ||| 0x80)
    (g, none)

/-- `UUID.String` (`uuid.go`, lines 45-52).  `fmt.Sprint` of operands that are
all strings is their concatenation. -/
def UUID.String (g : UUID) : GoString :=
  let tl := EncodeToString (slice g.bytes 0 4)
  let tm := EncodeToString (slice g.bytes 4 6)
  let th := EncodeToString (slice g.bytes 6 8)
  let cs := EncodeToString (slice g.bytes 8 10)
  let node := EncodeToString (slice g.bytes 10 16)
  tl ++ lit "-" ++ tm ++ lit "-" ++ th ++ lit "-" ++ cs ++ lit "-" ++ node

/-- `ParseUUID` (`uuid.go`, lines 56-82).  The loop of lines 66-70 returns at
the first rune that fails the test, so it returns exactly when some rune of
`s` fails it. -/
def ParseUUID (s : GoString) : UUID × Option GoError :=
  let uuid := UUID.zero
  let s := ReplaceAll s 0x2d []
  if len s ≠ 32 then
    (uuid, some (errorfWW ErrInvalidUUIDFormat ErrInvalidUUIDLength))
  else if (rangeRunes 0 s).any (fun r => !isHexRune r) then
    (uuid, some (errorfWW ErrInvalidUUIDFormat ErrInvalidUUIDHex))
  else
    match DecodeString s with
    | (_, some err) => (uuid, some (errorfWW ErrFailedToDecodeUUID err))
    | (bytes, none) => (uuid.copy bytes, none)

end UUIDSpec

namespace UUIDSpec

/-! ## Test data (`uuid_test.go`) and other sample inputs -/

/-- The UUID of the test cases "non-zero UUID" and "valid UUID". -/
def testUUID : UUID :=
  ⟨[0x33, 0x14, 0x95, 0xaa, 0xcd, 0xef, 0x40, 0x42, 0x81, 0x23, 0xaa, 0xbb, 0xcc, 0xdd, 0xee, 0xff],
    rfl⟩

/-- The two bytes `0xC3 0xA9`, the UTF-8 encoding of the character U+00E9
(e with acute accent). -/
def eAcute : GoString := [0xC3, 0xA9]

/-- The character U+00E9 written 32 times: 32 characters, 64 bytes. -/
def eAcute32 : GoString := (List.replicate 32 eAcute).flatMap id

/-- The digit `0` written 31 times, then the character U+00E9: 32 characters,
33 bytes. -/
def zerosThenEAcute : GoString := List.replicate 31 0x30 ++ eAcute

/-- The character U+00E9 written 16 times: 16 characters, 32 bytes. -/
def eAcute16 : GoString := (List.replicate 16 eAcute).flatMap id

/-! ## Vocabulary of the specification -/

/-- The input with every hyphen removed. -/
def removeHyphens (s : GoString) : GoString := s.filter (fun b => b ≠ 0x2d)

/-- An ASCII hex digit: `0-9`, `a-f` or `A-F`. -/
def isHexDigit (b : Byte) : Bool :=
  (decide (0x30 ≤ b.val) && decide (b.val ≤ 0x39))
    || (decide (0x61 ≤ b.val) && decide (b.val ≤ 0x66))
    || (decide (0x41 ≤ b.val) && decide (b.val ≤ 0x46))

/-- A lowercase hex digit: `0-9` or `a-f`. -/
def isLowerHexDigit (b : Byte) : Bool :=
  (decide (0x30 ≤ b.val) && decide (b.val ≤ 0x39))
    || (decide (0x61 ≤ b.val) && decide (b.val ≤ 0x66))

/-- The value of a hex digit, read without regard to case (`0` for a byte
that is no hex digit). -/
def hexval (b : Byte) : Nat :=
  if 0x30 ≤ b.val ∧ b.val ≤ 0x39 then b.val - 0x30
  else if 0x61 ≤ b.val ∧ b.val ≤ 0x66 then b.val - 0x61 + 10
  else if 0x41 ≤ b.val ∧ b.val ≤ 0x46 then b.val - 0x41 + 10
  else 0

/-- The lowercase hex digit of a value below 16. -/
def lowerDigit (n : Nat) : Byte :=
  if n < 10 then Fin.ofNat (0x30 + n) else Fin.ofNat (0x61 + (n - 10))

/-- A byte sequence written in hex: each byte as two lowercase digits, the
most significant nibble first. -/
def hexText (bs : List Byte) : GoString :=
  bs.flatMap (fun b => [lowerDigit (b.val / 16), lowerDigit (b.val % 16)])

/-- The number of characters of a text: the runes a `range` loop visits
(`utf8.RuneCountInString`). -/
def runeCount (s : GoString) : Nat := (rangeRunes 0 s).length

/-- The other-case counterpart of an ASCII letter; any other byte is left as
it is. -/
def swapCase (b : Byte) : Byte :=
  if 0x41 ≤ b.val ∧ b.val ≤ 0x5A then b + 0x20
  else if 0x61 ≤ b.val ∧ b.val ≤ 0x7A then b - 0x20
  else b

/-- The text `s` with the letters at the marked positions replaced by their
other-case counterparts (`mask` marks positions from the start of `s`;
positions beyond the mask are left as they are). -/
def recase : List Bool → GoString → GoString
  | true :: ms, b :: rest => swapCase b :: recase ms rest
  | false :: ms, b :: rest => b :: recase ms rest
  | _, s => s

/-- ASCII lowercasing of one byte: `A-Z` become `a-z`. -/
def asciiLower (b : Byte) : Byte :=
  if 0x41 ≤ b.val ∧ b.val ≤ 0x5A then b + 0x20 else b

/-- A digit string with a hyphen inserted after its 8th, 12th, 16th and 20th
digit. -/
def insertHyphens (d : GoString) : GoString :=
  d.take 8 ++ lit "-" ++ (d.drop 8).take 4 ++ lit "-" ++ (d.drop 12).take 4 ++ lit "-"
    ++ (d.drop 16).take 4 ++ lit "-" ++ d.drop 20

/-- The canonical lowercase 8-4-4-4-12 form: 36 bytes, hyphens at offsets 8,
13, 18 and 23, a lowercase hex digit at every other offset. -/
def isCanonical (s : GoString) : Bool :=
  decide (s.length = 36) &&
    (List.range 36).all (fun i =>
      if i = 8 ∨ i = 13 ∨ i = 18 ∨ i = 23 then decide (byteAt s i = 0x2d)
      else isLowerHexDigit (byteAt s i))

/-- The bytes whose nibbles are the given values, two values per byte, the
most significant first. -/
def joinNibbles : List Nat → List Byte
  | a :: b :: rest => Fin.ofNat (16 * a + b) :: joinNibbles rest
  | _ => []

/-! ## Facts about single bytes -/

set_option maxRecDepth 1000000 in
theorem encode_byte_spec : ∀ v : Byte,
    byteAt hextable (v >>> 4).val = lowerDigit (v.val / 16) ∧
    byteAt hextable (v &&& 0x0f).val = lowerDigit (v.val % 16) := by
  decide

set_option maxRecDepth 1000000 in
theorem lowerDigit_props : ∀ n : Fin 16,
    isLowerHexDigit (lowerDigit n.val) = true ∧ lowerDigit n.val ≠ 0x2d ∧
    hexval (lowerDigit n.val) = n.val := by
  decide

set_option maxRecDepth 1000000 in
theorem reverseHexTable_spec : ∀ b : Byte,
    (isHexDigit b = true → (byteAt reverseHexTable b.val).val = hexval b ∧ hexval b < 16) ∧
    (isLowerHexDigit b = true → isHexDigit b = true) ∧
    (isHexDigit b = true → b ≠ 0x2d) ∧
    (isHexDigit b = isHexRune b.val) ∧ (isHexDigit b = true → b < 0x80) := by
  decide

set_option maxRecDepth 1000000 in
theorem nibbles_join : ∀ a : Fin 16, ∀ b : Fin 16,
    ((((Fin.castLE (by decide) a : Byte) <<< 4) ||| (Fin.castLE (by decide) b : Byte)) : Byte).val
      = 16 * a.val + b.val := by
  decide

theorem join_val (a b : Byte) (ha : a.val < 16) (hb : b.val < 16) :
    ((a <<< 4) ||| b).val = 16 * a.val + b.val := by
  have h := nibbles_join ⟨a.val, ha⟩ ⟨b.val, hb⟩
  have ea : (Fin.castLE (by decide) (⟨a.val, ha⟩ : Fin 16) : Byte) = a := Fin.ext rfl
  have eb : (Fin.castLE (by decide) (⟨b.val, hb⟩ : Fin 16) : Byte) = b := Fin.ext rfl
  rw [ea, eb] at h
  exact h

/-! ## Facts about the library functions -/

theorem ReplaceAll_hyphen (s : GoString) : ReplaceAll s 0x2d [] = removeHyphens s := by
  induction s with
  | nil => rfl
  | cons b rest ih =>
    unfold ReplaceAll
    rw [ih]
    by_cases h : b = 0x2d <;> simp [removeHyphens, List.filter_cons, h]

theorem isHexRune_big (r : Nat) (h : 0x7F < r) : isHexRune r = false := by
  unfold isHexRune
  have h1 : ¬ r ≤ 0x39 := by omega
  have h2 : ¬ r ≤ 0x66 := by omega
  have h3 : ¬ r ≤ 0x46 := by omega
  simp [h1, h2, h3]

theorem decoderune_not_hex (s : GoString) : isHexRune (decoderune s).1 = false := by
  have he : isHexRune runeError = false := by decide
  unfold decoderune
  repeat' split
  all_goals first
    | exact he
    | (dsimp only
       split
       · apply isHexRune_big; dsimp only; omega
       · exact he)

theorem rangeRunes_any (s : GoString) :
    (rangeRunes 0 s).any (fun r => !isHexRune r) = s.any (fun b => !isHexDigit b) := by
  induction s with
  | nil => rfl
  | cons b rest ih =>
    rw [rangeRunes]
    by_cases hb : b < 0x80
    · rw [if_pos hb, List.any_cons, List.any_cons, ih, (reverseHexTable_spec b).2.2.2.1]
    · rw [if_neg hb, List.any_cons, List.any_cons, decoderune_not_hex]
      have : isHexDigit b = false := by
        cases h : isHexDigit b with
        | false => rfl
        | true => exact absurd ((reverseHexTable_spec b).2.2.2.2 h) hb
      simp [this]

theorem Decode_cons_cons (p q : Byte) (rest : List Byte)
    (hp : isHexDigit p = true) (hq : isHexDigit q = true) :
    Decode (p :: q :: rest) =
      (((byteAt reverseHexTable p.val <<< 4) ||| byteAt reverseHexTable q.val)
          :: (Decode rest).1, (Decode rest).2) ∧
    ((byteAt reverseHexTable p.val <<< 4) ||| byteAt reverseHexTable q.val).val
      = 16 * hexval p + hexval q := by
  obtain ⟨hpv, hpl⟩ := (reverseHexTable_spec p).1 hp
  obtain ⟨hqv, hql⟩ := (reverseHexTable_spec q).1 hq
  have h1 : ¬ byteAt reverseHexTable p.val > 0x0f := by
    rw [gt_iff_lt, Fin.lt_def, hpv]
    show ¬ 15 < hexval p
    omega
  have h2 : ¬ byteAt reverseHexTable q.val > 0x0f := by
    rw [gt_iff_lt, Fin.lt_def, hqv]
    show ¬ 15 < hexval q
    omega
  constructor
  · rw [Decode]
    simp only [if_neg h1, if_neg h2]
  · rw [join_val _ _ (by omega) (by omega), hpv, hqv]

theorem Decode_hex : ∀ (n : Nat) (c : List Byte), c.length = 2 * n →
    (∀ b ∈ c, isHexDigit b = true) →
    (Decode c).2 = none ∧ (Decode c).1.length = n ∧
    ∀ i, i < n → (byteAt (Decode c).1 i).val
      = 16 * hexval (byteAt c (2 * i)) + hexval (byteAt c (2 * i + 1)) := by
  intro n
  induction n with
  | zero =>
    intro c hc _
    have : c = [] := List.length_eq_zero.mp (by omega)
    subst this
    refine ⟨rfl, rfl, ?_⟩
    intro i hi
    omega
  | succ n ih =>
    intro c hc hx
    match c, hc, hx with
    | p :: q :: rest, hc, hx =>
      have hp : isHexDigit p = true := hx p (by simp)
      have hq : isHexDigit q = true := hx q (by simp)
      obtain ⟨hd, hv⟩ := Decode_cons_cons p q rest hp hq
      have hlen : rest.length = 2 * n := by
        simp only [List.length_cons] at hc
        omega
      obtain ⟨e1, e2, e3⟩ := ih rest hlen (fun b hb => hx b (by simp [hb]))
      rw [hd]
      refine ⟨e1, by simp [e2], ?_⟩
      intro i hi
      cases i with
      | zero => simpa [byteAt] using hv
      | succ j =>
        have := e3 j (by omega)
        have e : 2 * (j + 1) = (2 * j + 1) + 1 := by ring
        rw [e]
        simpa [byteAt] using this
    | [_], hc, _ => simp only [List.length_cons, List.length_nil] at hc; omega
    | [], hc, _ => simp only [List.length_nil] at hc; omega

theorem EncodeToString_hexText (l : List Byte) : EncodeToString l = hexText l := by
  induction l with
  | nil => rfl
  | cons v rest ih =>
    rw [EncodeToString, ih, (encode_byte_spec v).1, (encode_byte_spec v).2]
    simp [hexText]

theorem hexText_cons (v : Byte) (rest : List Byte) :
    hexText (v :: rest) = lowerDigit (v.val / 16) :: lowerDigit (v.val % 16) :: hexText rest := by
  simp [hexText]

theorem hexText_append (a b : List Byte) : hexText (a ++ b) = hexText a ++ hexText b := by
  simp [hexText]

theorem hexText_length (l : List Byte) : (hexText l).length = 2 * l.length := by
  induction l with
  | nil => rfl
  | cons v rest ih => rw [hexText_cons]; simp only [List.length_cons, ih]; ring

theorem hexText_lower (l : List Byte) :
    ∀ b ∈ hexText l, isLowerHexDigit b = true ∧ b ≠ 0x2d := by
  induction l with
  | nil => intro b hb; simp [hexText] at hb
  | cons v rest ih =>
    intro b hb
    rw [hexText_cons] at hb
    have hi := lowerDigit_props ⟨v.val / 16, by omega⟩
    have lo := lowerDigit_props ⟨v.val % 16, by omega⟩
    simp only [List.mem_cons] at hb
    rcases hb with h | h | h
    · subst h; exact ⟨hi.1, hi.2.1⟩
    · subst h; exact ⟨lo.1, lo.2.1⟩
    · exact ih b h

theorem Decode_hexText (l : List Byte) : Decode (hexText l) = (l, none) := by
  induction l with
  | nil => rfl
  | cons v rest ih =>
    rw [hexText_cons]
    have hi := lowerDigit_props ⟨v.val / 16, by omega⟩
    have lo := lowerDigit_props ⟨v.val % 16, by omega⟩
    obtain ⟨hd, hv⟩ := Decode_cons_cons (lowerDigit (v.val / 16)) (lowerDigit (v.val % 16))
      (hexText rest) ((reverseHexTable_spec _).2.1 hi.1) ((reverseHexTable_spec _).2.1 lo.1)
    rw [hd, ih]
    have : (byteAt reverseHexTable (lowerDigit (v.val / 16)).val <<< 4
        ||| byteAt reverseHexTable (lowerDigit (v.val % 16)).val) = v := by
      apply Fin.ext
      rw [hv, hi.2.2, lo.2.2]
      show 16 * (v.val / 16) + v.val % 16 = v.val
      omega
    rw [this]

/-! ## Facts about `UUID` and `ParseUUID` -/

theorem UUID.eq_of_bytes {a b : UUID} (h : a.bytes = b.bytes) : a = b := by
  cases a
  cases b
  simp only [UUID.mk.injEq]
  exact h

theorem UUID.copy_bytes (dst : UUID) (src : List Byte) (h : src.length = 16) :
    (dst.copy src).bytes = src := by
  have hd := dst.size
  simp only [UUID.copy]
  rw [List.take_of_length_le (by omega), List.drop_of_length_le (by omega), List.append_nil]

theorem slices_bytes (l : List Byte) (h : l.length = 16) :
    slice l 0 4 ++ slice l 4 6 ++ slice l 6 8 ++ slice l 8 10 ++ slice l 10 16 = l := by
  match l, h with
  | [_, _, _, _, _, _, _, _, _, _, _, _, _, _, _, _], _ => rfl

theorem removeHyphens_append (a b : GoString) :
    removeHyphens (a ++ b) = removeHyphens a ++ removeHyphens b := by
  simp [removeHyphens]

theorem removeHyphens_hexText (l : List Byte) : removeHyphens (hexText l) = hexText l := by
  unfold removeHyphens
  rw [List.filter_eq_self]
  intro b hb
  simpa using (hexText_lower l b hb).2

theorem removeHyphens_idem (s : GoString) : removeHyphens (removeHyphens s) = removeHyphens s := by
  simp [removeHyphens]

theorem removeHyphens_String (u : UUID) : removeHyphens u.String = hexText u.bytes := by
  have e : removeHyphens (lit "-") = [] := by decide
  simp only [UUID.String, EncodeToString_hexText, removeHyphens_append, removeHyphens_hexText, e,
    List.append_nil]
  rw [← hexText_append, ← hexText_append, ← hexText_append, ← hexText_append,
    slices_bytes _ u.size]

theorem ParseUUID_length (s : GoString) (h : (removeHyphens s).length ≠ 32) :
    ParseUUID s = (UUID.zero, some (errorfWW ErrInvalidUUIDFormat ErrInvalidUUIDLength)) := by
  simp only [ParseUUID, ReplaceAll_hyphen, len]
  rw [if_pos h]

theorem ParseUUID_hex (s : GoString) (h : (removeHyphens s).length = 32)
    (hx : (removeHyphens s).any (fun b => !isHexDigit b) = true) :
    ParseUUID s = (UUID.zero, some (errorfWW ErrInvalidUUIDFormat ErrInvalidUUIDHex)) := by
  simp only [ParseUUID, ReplaceAll_hyphen, len, rangeRunes_any]
  rw [if_neg (by simp [h]), if_pos hx]

theorem ParseUUID_ok (s : GoString) (h : (removeHyphens s).length = 32)
    (hx : ∀ b ∈ removeHyphens s, isHexDigit b = true) :
    ParseUUID s = (UUID.zero.copy (Decode (removeHyphens s)).1, none) ∧
    (UUID.zero.copy (Decode (removeHyphens s)).1).bytes = (Decode (removeHyphens s)).1 := by
  obtain ⟨e1, e2, _⟩ := Decode_hex 16 (removeHyphens s) (by omega) hx
  have hany : ¬ (removeHyphens s).any (fun b => !isHexDigit b) = true := by
    simp only [List.any_eq_true, not_exists, not_and]
    intro b hb
    simp [hx b hb]
  have hd : Decode (removeHyphens s) = ((Decode (removeHyphens s)).1, none) := by
    rw [← e1]
  refine ⟨?_, UUID.copy_bytes _ _ e2⟩
  simp only [ParseUUID, ReplaceAll_hyphen, len, rangeRunes_any, DecodeString]
  rw [if_neg (by simp [h]), if_neg hany]
  rw [hd]

/-- The three outcomes of `ParseUUID`, by the hyphen-stripped input. -/
theorem ParseUUID_cases (s : GoString) :
    ((removeHyphens s).length ≠ 32 ∧
      ParseUUID s = (UUID.zero, some (errorfWW ErrInvalidUUIDFormat ErrInvalidUUIDLength))) ∨
    ((removeHyphens s).length = 32 ∧ (∃ b ∈ removeHyphens s, isHexDigit b = false) ∧
      ParseUUID s = (UUID.zero, some (errorfWW ErrInvalidUUIDFormat ErrInvalidUUIDHex))) ∨
    ((removeHyphens s).length = 32 ∧ (∀ b ∈ removeHyphens s, isHexDigit b = true) ∧
      ParseUUID s = (UUID.zero.copy (Decode (removeHyphens s)).1, none)) := by
  by_cases h : (removeHyphens s).length = 32
  · by_cases hx : ∀ b ∈ removeHyphens s, isHexDigit b = true
    · exact Or.inr (Or.inr ⟨h, hx, (ParseUUID_ok s h hx).1⟩)
    · simp only [not_forall, Bool.not_eq_true] at hx
      obtain ⟨b, hb, hb2⟩ := hx
      refine Or.inr (Or.inl ⟨h, ⟨b, hb, hb2⟩, ParseUUID_hex s h ?_⟩)
      simp only [List.any_eq_true]
      exact ⟨b, hb, by simp [hb2]⟩
  · exact Or.inl ⟨h, ParseUUID_length s h⟩

theorem ParseUUID_nil_iff (s : GoString) :
    (ParseUUID s).2 = none ↔
      ((removeHyphens s).length = 32 ∧ ∀ b ∈ removeHyphens s, isHexDigit b = true) := by
  rcases ParseUUID_cases s with ⟨h, e⟩ | ⟨h, ⟨b, hb, hb2⟩, e⟩ | ⟨h, hx, e⟩
  · rw [e]
    exact ⟨fun k => by simp at k, fun k => absurd k.1 h⟩
  · rw [e]
    refine ⟨fun k => by simp at k, fun k => ?_⟩
    have := k.2 b hb
    rw [hb2] at this
    exact Bool.noConfusion this
  · rw [e]
    exact ⟨fun _ => ⟨h, hx⟩, fun _ => rfl⟩

theorem ParseUUID_congr (s t : GoString) (h : removeHyphens s = removeHyphens t) :
    ParseUUID s = ParseUUID t := by
  simp only [ParseUUID, ReplaceAll_hyphen, h]

theorem lowerDigit_hi (b : Byte) : isLowerHexDigit (lowerDigit (b.val / 16)) = true :=
  (lowerDigit_props ⟨b.val / 16, by omega⟩).1

theorem lowerDigit_lo (b : Byte) : isLowerHexDigit (lowerDigit (b.val % 16)) = true :=
  (lowerDigit_props ⟨b.val % 16, by omega⟩).1

set_option maxRecDepth 1000000 in
theorem marker_bits : ∀ b : Byte,
    ((b &&& 0x0f) ||| 0x40) &&& 0xF0 = 0x40 ∧ ((b &&& 0x3f) ||| 0x80) &&& 0xC0 = 0x80 := by
  decide

/-! ## Case variants, canonical texts and the normal form of `Decode` -/

set_option maxRecDepth 1000000 in
theorem swapCase_props : ∀ b : Byte,
    isHexDigit (swapCase b) = isHexDigit b ∧ hexval (swapCase b) = hexval b ∧
    (swapCase b = 0x2d ↔ b = 0x2d) := by
  decide

set_option maxRecDepth 1000000 in
theorem asciiLower_props : ∀ b : Byte,
    (isHexDigit b = true → lowerDigit (hexval b) = asciiLower b) ∧
    (isLowerHexDigit b = true → asciiLower b = b) := by
  decide

theorem recase_rel : ∀ (mask : List Bool) (s : GoString),
    List.Forall₂ (fun a b => b = a ∨ b = swapCase a) s (recase mask s) := by
  intro mask s
  induction s generalizing mask with
  | nil => cases mask with
    | nil => exact List.Forall₂.nil
    | cons m ms => cases m <;> exact List.Forall₂.nil
  | cons b rest ih =>
    cases mask with
    | nil =>
      rw [recase]
      · exact List.forall₂_same.mpr (fun x _ => Or.inl rfl)
      · intro ms b' rest' h; simp at h
      · intro ms b' rest' h; simp at h
    | cons m ms =>
      cases m with
      | true => exact List.Forall₂.cons (Or.inr rfl) (ih ms)
      | false => exact List.Forall₂.cons (Or.inl rfl) (ih ms)

theorem rel_removeHyphens {s t : GoString}
    (h : List.Forall₂ (fun a b => b = a ∨ b = swapCase a) s t) :
    List.Forall₂ (fun a b => b = a ∨ b = swapCase a) (removeHyphens s) (removeHyphens t) := by
  induction h with
  | nil => exact List.Forall₂.nil
  | @cons a b l₁ l₂ hab _ ih =>
    have hy : (b = 0x2d ↔ a = 0x2d) := by
      rcases hab with rfl | rfl
      · exact Iff.rfl
      · exact (swapCase_props a).2.2
    unfold removeHyphens at ih ⊢
    by_cases ha : a = 0x2d
    · have hb : b = 0x2d := hy.mpr ha
      simpa [List.filter_cons, ha, hb] using ih
    · have hb : ¬ b = 0x2d := fun k => ha (hy.mp k)
      simp only [List.filter_cons, ha, hb, ne_eq, not_false_eq_true, decide_True, if_true]
      exact List.Forall₂.cons hab ih

theorem rel_map_hexval {c d : GoString}
    (h : List.Forall₂ (fun a b => b = a ∨ b = swapCase a) c d) :
    c.map hexval = d.map hexval ∧ c.all isHexDigit = d.all isHexDigit := by
  induction h with
  | nil => exact ⟨rfl, rfl⟩
  | @cons a b l₁ l₂ hab _ ih =>
    have hy : hexval b = hexval a ∧ isHexDigit b = isHexDigit a := by
      rcases hab with rfl | rfl
      · exact ⟨rfl, rfl⟩
      · exact ⟨(swapCase_props a).2.1, (swapCase_props a).1⟩
    simp only [List.map_cons, List.all_cons, hy.1, hy.2, ih.1, ih.2]
    exact ⟨trivial, trivial⟩

theorem Decode_joinNibbles : ∀ (n : Nat) (c : List Byte), c.length = 2 * n →
    (∀ b ∈ c, isHexDigit b = true) → Decode c = (joinNibbles (c.map hexval), none) := by
  intro n
  induction n with
  | zero =>
    intro c hc _
    have : c = [] := List.length_eq_zero.mp (by omega)
    subst this
    rfl
  | succ n ih =>
    intro c hc hx
    match c, hc, hx with
    | p :: q :: rest, hc, hx =>
      have hp : isHexDigit p = true := hx p (by simp)
      have hq : isHexDigit q = true := hx q (by simp)
      obtain ⟨hd, hv⟩ := Decode_cons_cons p q rest hp hq
      have hlen : rest.length = 2 * n := by
        simp only [List.length_cons] at hc
        omega
      have hr := ih rest hlen (fun b hb => hx b (by simp [hb]))
      have hpl := ((reverseHexTable_spec p).1 hp).2
      have hql := ((reverseHexTable_spec q).1 hq).2
      have hb : (byteAt reverseHexTable p.val <<< 4 ||| byteAt reverseHexTable q.val)
          = Fin.ofNat (16 * hexval p + hexval q) := by
        apply Fin.ext
        rw [hv]
        show 16 * hexval p + hexval q = (16 * hexval p + hexval q) % 256
        omega
      rw [hd, hr, hb]
      rfl
    | [_], hc, _ => simp only [List.length_cons, List.length_nil] at hc; omega
    | [], hc, _ => simp only [List.length_nil] at hc; omega

theorem all_hex_iff (c : GoString) :
    (∀ b ∈ c, isHexDigit b = true) ↔ c.all isHexDigit = true := by
  simp [List.all_eq_true]

theorem ParseUUID_rel (s t : GoString)
    (h : List.Forall₂ (fun a b => b = a ∨ b = swapCase a) (removeHyphens s) (removeHyphens t)) :
    ParseUUID s = ParseUUID t := by
  have hl := h.length_eq
  obtain ⟨hm, ha⟩ := rel_map_hexval h
  by_cases h32 : (removeHyphens s).length = 32
  · by_cases hx : ∀ b ∈ removeHyphens s, isHexDigit b = true
    · have hx' : ∀ b ∈ removeHyphens t, isHexDigit b = true := by
        rw [all_hex_iff, ← ha, ← all_hex_iff]
        exact hx
      rw [(ParseUUID_ok s h32 hx).1, (ParseUUID_ok t (hl ▸ h32) hx').1,
        Decode_joinNibbles 16 _ (by omega) hx, Decode_joinNibbles 16 _ (by omega) hx', hm]
    · have hx' : ¬ ∀ b ∈ removeHyphens t, isHexDigit b = true := by
        rw [all_hex_iff, ← ha, ← all_hex_iff]
        exact hx
      have e1 : (removeHyphens s).any (fun b => !isHexDigit b) = true := by
        simp only [List.any_eq_true, Bool.not_eq_true']
        simpa using hx
      have e2 : (removeHyphens t).any (fun b => !isHexDigit b) = true := by
        simp only [List.any_eq_true, Bool.not_eq_true']
        simpa using hx'
      rw [ParseUUID_hex s h32 e1, ParseUUID_hex t (hl ▸ h32) e2]
  · rw [ParseUUID_length s h32, ParseUUID_length t (hl ▸ h32)]

set_option maxRecDepth 1000000 in
theorem marker_keep : ∀ b : Byte,
    ((b &&& 0x0f) ||| 0x40) &&& 0x0f = b &&& 0x0f ∧
    ((b &&& 0x3f) ||| 0x80) &&& 0x3f = b &&& 0x3f := by
  decide

theorem hexText_joinNibbles : ∀ (n : Nat) (c : List Byte), c.length = 2 * n →
    (∀ b ∈ c, isHexDigit b = true) →
    hexText (joinNibbles (c.map hexval)) = c.map asciiLower := by
  intro n
  induction n with
  | zero =>
    intro c hc _
    have : c = [] := List.length_eq_zero.mp (by omega)
    subst this
    rfl
  | succ n ih =>
    intro c hc hx
    match c, hc, hx with
    | p :: q :: rest, hc, hx =>
      have hp : isHexDigit p = true := hx p (by simp)
      have hq : isHexDigit q = true := hx q (by simp)
      have hlen : rest.length = 2 * n := by
        simp only [List.length_cons] at hc
        omega
      have hr := ih rest hlen (fun b hb => hx b (by simp [hb]))
      have hpl := ((reverseHexTable_spec p).1 hp).2
      have hql := ((reverseHexTable_spec q).1 hq).2
      have hv : (Fin.ofNat (16 * hexval p + hexval q) : Byte).val = 16 * hexval p + hexval q := by
        show (16 * hexval p + hexval q) % 256 = 16 * hexval p + hexval q
        omega
      have h1 : (16 * hexval p + hexval q) / 16 = hexval p := by omega
      have h2 : (16 * hexval p + hexval q) % 16 = hexval q := by omega
      simp only [List.map_cons, joinNibbles]
      rw [hexText_cons, hr, hv, h1, h2, (asciiLower_props p).1 hp, (asciiLower_props q).1 hq]
    | [_], hc, _ => simp only [List.length_cons, List.length_nil] at hc; omega
    | [], hc, _ => simp only [List.length_nil] at hc; omega

theorem String_insertHyphens (u : UUID) : u.String = insertHyphens (hexText u.bytes) := by
  obtain ⟨l, hl⟩ := u
  match l, hl with
  | [b0, b1, b2, b3, b4, b5, b6, b7, b8, b9, b10, b11, b12, b13, b14, b15], _ =>
    simp only [UUID.String, EncodeToString_hexText, hexText_cons, insertHyphens]
    rfl

theorem lower_ne_hyphen (b : Byte) (h : isLowerHexDigit b = true) : ¬ b = 0x2d :=
  (reverseHexTable_spec b).2.2.1 ((reverseHexTable_spec b).2.1 h)

theorem canonical_form (s : GoString) (h : isCanonical s = true) :
    s = insertHyphens (removeHyphens s) ∧ (removeHyphens s).length = 32 ∧
    ∀ b ∈ removeHyphens s, isLowerHexDigit b = true := by
  unfold isCanonical at h
  rw [Bool.and_eq_true, decide_eq_true_eq] at h
  obtain ⟨hlen, hall⟩ := h
  match s, hlen, hall with
  | c0 :: c1 :: c2 :: c3 :: c4 :: c5 :: c6 :: c7 :: c8 :: c9 :: c10 :: c11 :: c12 :: c13 :: c14
      :: c15 :: c16 :: c17 :: c18 :: c19 :: c20 :: c21 :: c22 :: c23 :: c24 :: c25 :: c26 :: c27 ::
      c28 :: c29 :: c30 :: c31 :: c32 :: c33 :: c34 :: c35 :: [], _, hall =>
    have hr : List.range 36 = [0, 1, 2, 3, 4, 5, 6, 7, 8, 9, 10, 11, 12, 13, 14, 15, 16, 17, 18,
        19, 20, 21, 22, 23, 24, 25, 26, 27, 28, 29, 30, 31, 32, 33, 34, 35] := by decide
    rw [hr] at hall
    simp [byteAt] at hall
    obtain ⟨h0, h1, h2, h3, h4, h5, h6, h7, h8, h9, h10, h11, h12, h13, h14, h15, h16, h17, h18,
        h19, h20, h21, h22, h23, h24, h25, h26, h27, h28, h29, h30, h31, h32, h33, h34, h35⟩ := hall
    subst h8 h13 h18 h23
    have e : removeHyphens [c0, c1, c2, c3, c4, c5, c6, c7, 0x2d, c9, c10, c11, c12, 0x2d, c14,
        c15, c16, c17, 0x2d, c19, c20, c21, c22, 0x2d, c24, c25, c26, c27, c28, c29, c30, c31, c32,
        c33, c34, c35] = [c0, c1, c2, c3, c4, c5, c6, c7, c9, c10, c11, c12, c14, c15, c16, c17,
        c19, c20, c21, c22, c24, c25, c26, c27, c28, c29, c30, c31, c32, c33, c34, c35] := by
      simp [removeHyphens, List.filter_cons, lower_ne_hyphen _ h0, lower_ne_hyphen _ h1,
          lower_ne_hyphen _ h2, lower_ne_hyphen _ h3, lower_ne_hyphen _ h4, lower_ne_hyphen _ h5,
          lower_ne_hyphen _ h6, lower_ne_hyphen _ h7, lower_ne_hyphen _ h9, lower_ne_hyphen _ h10,
          lower_ne_hyphen _ h11, lower_ne_hyphen _ h12, lower_ne_hyphen _ h14, lower_ne_hyphen _
          h15, lower_ne_hyphen _ h16, lower_ne_hyphen _ h17, lower_ne_hyphen _ h19, lower_ne_hyphen
          _ h20, lower_ne_hyphen _ h21, lower_ne_hyphen _ h22, lower_ne_hyphen _ h24,
          lower_ne_hyphen _ h25, lower_ne_hyphen _ h26, lower_ne_hyphen _ h27, lower_ne_hyphen _
          h28, lower_ne_hyphen _ h29, lower_ne_hyphen _ h30, lower_ne_hyphen _ h31, lower_ne_hyphen
          _ h32, lower_ne_hyphen _ h33, lower_ne_hyphen _ h34, lower_ne_hyphen _ h35]
    rw [e]
    refine ⟨rfl, rfl, ?_⟩
    intro b hb
    simp only [List.mem_cons, List.mem_singleton, List.not_mem_nil, or_false] at hb
    rcases hb with hb | hb | hb | hb | hb | hb | hb | hb | hb | hb | hb | hb | hb | hb | hb | hb
        | hb | hb | hb | hb | hb | hb | hb | hb | hb | hb | hb | hb | hb | hb | hb | hb <;> subst hb
        <;> assumption

/-! ## The claims -/

/-- C1 (round trip): for every 16-byte UUID `u`, `ParseUUID(u.String())`
returns `u` and the nil error; in particular for the UUID that `NewUUID`
returns, whatever the random source did. -/
theorem C1_round_trip (u : UUID) :
    ParseUUID u.String = (u, none) ∧
    ∀ rd : RandRead, ParseUUID (NewUUID rd).1.String = ((NewUUID rd).1, none) := by
  have key : ∀ v : UUID, ParseUUID v.String = (v, none) := by
    intro v
    have hs := removeHyphens_String v
    have hl : (removeHyphens v.String).length = 32 := by
      rw [hs, hexText_length, v.size]
    have hx : ∀ b ∈ removeHyphens v.String, isHexDigit b = true := by
      intro b hb
      rw [hs] at hb
      exact (reverseHexTable_spec b).2.1 (hexText_lower _ b hb).1
    obtain ⟨e1, e2⟩ := ParseUUID_ok v.String hl hx
    rw [e1]
    congr 1
    apply UUID.eq_of_bytes
    rw [e2, hs, Decode_hexText]
  exact ⟨key u, fun rd => key _⟩

/-- C2 (acceptance): `ParseUUID(s)` returns the nil error if and only if `s`
with every hyphen removed consists of exactly 32 ASCII hex digits; on every
other input it returns an error (the function is total: there is no input on
which it does not return). -/
theorem C2_acceptance (s : GoString) :
    ((ParseUUID s).2 = none ↔
      ((removeHyphens s).length = 32 ∧ ∀ b ∈ removeHyphens s, isHexDigit b = true)) ∧
    (((removeHyphens s).length = 32 ∧ (∀ b ∈ removeHyphens s, isHexDigit b = true) ∧
        (ParseUUID s).2 = none) ∨
      (¬ ((removeHyphens s).length = 32 ∧ ∀ b ∈ removeHyphens s, isHexDigit b = true) ∧
        ∃ e, (ParseUUID s).2 = some e)) := by
  refine ⟨ParseUUID_nil_iff s, ?_⟩
  by_cases k : (removeHyphens s).length = 32 ∧ ∀ b ∈ removeHyphens s, isHexDigit b = true
  · exact Or.inl ⟨k.1, k.2, (ParseUUID_nil_iff s).mpr k⟩
  · refine Or.inr ⟨k, ?_⟩
    cases h : (ParseUUID s).2 with
    | none => exact absurd ((ParseUUID_nil_iff s).mp h) k
    | some e => exact ⟨e, rfl⟩

/-- C3 (decoding): whenever `ParseUUID(s)` succeeds, byte `i` of the result
(for every `i` in 0..15) is `16 * hexval(c[2i]) + hexval(c[2i+1])`, where `c`
is `s` with all hyphens removed; no bit is patched. -/
theorem C3_decoding (s : GoString) (h : (ParseUUID s).2 = none) (i : Fin 16) :
    ((ParseUUID s).1.get i.val).val =
      16 * hexval (byteAt (removeHyphens s) (2 * i.val))
        + hexval (byteAt (removeHyphens s) (2 * i.val + 1)) := by
  obtain ⟨hl, hx⟩ := (ParseUUID_nil_iff s).mp h
  obtain ⟨e1, e2⟩ := ParseUUID_ok s hl hx
  obtain ⟨_, _, e3⟩ := Decode_hex 16 (removeHyphens s) (by omega) hx
  rw [e1]
  simp only [UUID.get]
  rw [e2]
  exact e3 i.val i.isLt

/-- C3, at the inputs the claim names: the test string gives the bytes
`33 14 95 aa cd ef 40 42 81 23 aa bb cc dd ee ff`, 32 zeros give the all-zero
UUID, and byte 6 of the first is read from the digits `4` and `0`. -/
theorem C3_decoding_witness :
    (ParseUUID (lit "331495AA-CDEF-4042-8123-AABBCCDDEEFF")).2 = none ∧
    (ParseUUID (lit "331495AA-CDEF-4042-8123-AABBCCDDEEFF")).1.bytes =
      [0x33, 0x14, 0x95, 0xaa, 0xcd, 0xef, 0x40, 0x42, 0x81, 0x23, 0xaa, 0xbb, 0xcc, 0xdd, 0xee,
        0xff] ∧
    ParseUUID (lit "00000000000000000000000000000000") = (UUID.zero, none) ∧
    ((ParseUUID (lit "331495AA-CDEF-4042-8123-AABBCCDDEEFF")).1.get 6).val =
      16 * hexval (byteAt (removeHyphens (lit "331495AA-CDEF-4042-8123-AABBCCDDEEFF")) 12)
        + hexval (byteAt (removeHyphens (lit "331495AA-CDEF-4042-8123-AABBCCDDEEFF")) 13) :=
  ⟨by decide, by decide, by decide,
    C3_decoding (lit "331495AA-CDEF-4042-8123-AABBCCDDEEFF") (by decide) 6⟩

/-- C4 (formatting): `u.String()` is
`hex(u[0..4]) + "-" + hex(u[4..6]) + "-" + hex(u[6..8]) + "-" + hex(u[8..10]) + "-" + hex(u[10..16])`
with `hex` writing each byte as two lowercase hex digits, most significant
nibble first; the all-zero UUID and the test UUID give the two strings of the
test file. -/
theorem C4_formatting (u : UUID) :
    u.String =
      hexText (slice u.bytes 0 4) ++ lit "-" ++ hexText (slice u.bytes 4 6) ++ lit "-"
        ++ hexText (slice u.bytes 6 8) ++ lit "-" ++ hexText (slice u.bytes 8 10) ++ lit "-"
        ++ hexText (slice u.bytes 10 16) ∧
    UUID.zero.String = lit "00000000-0000-0000-0000-000000000000" ∧
    testUUID.String = lit "331495aa-cdef-4042-8123-aabbccddeeff" := by
  refine ⟨?_, by decide, by decide⟩
  simp only [UUID.String, EncodeToString_hexText]

/-- C5 (output shape): `u.String()` has length 36, the characters at offsets
8, 13, 18 and 23 are hyphens, and each of the other 32 characters is a
lowercase hex digit (`0-9`, `a-f`). -/
theorem C5_output_shape (u : UUID) :
    u.String.length = 36 ∧
    ∀ i : Fin 36,
      if i.val = 8 ∨ i.val = 13 ∨ i.val = 18 ∨ i.val = 23 then byteAt u.String i.val = 0x2d
      else isLowerHexDigit (byteAt u.String i.val) = true := by
  obtain ⟨l, hl⟩ := u
  match l, hl with
  | [b0, b1, b2, b3, b4, b5, b6, b7, b8, b9, b10, b11, b12, b13, b14, b15], _ =>
    have e : (UUID.mk [b0, b1, b2, b3, b4, b5, b6, b7, b8, b9, b10, b11, b12, b13, b14, b15]
        rfl).String =
        hexText [b0, b1, b2, b3] ++ lit "-" ++ hexText [b4, b5] ++ lit "-" ++ hexText [b6, b7]
          ++ lit "-" ++ hexText [b8, b9] ++ lit "-" ++ hexText [b10, b11, b12, b13, b14, b15] := by
      simp only [UUID.String, EncodeToString_hexText]
      rfl
    have d : lit "-" = [0x2d] := by decide
    rw [e, d]
    simp only [hexText_cons]
    refine ⟨rfl, ?_⟩
    intro i
    fin_cases i <;> simp [byteAt, hexText, lowerDigit_hi, lowerDigit_lo]

/-- C6 (version and variant): when the random source succeeds, whatever 16
bytes it delivered, `NewUUID` returns the nil error and a UUID `u` with
`(u[6] & 0xF0) == 0x40` and `(u[8] & 0xC0) == 0x80`. -/
theorem C6_version_variant (buf : UUID) :
    (NewUUID ⟨buf, none⟩).2 = none ∧
    (NewUUID ⟨buf, none⟩).1.get 6 &&& 0xF0 = 0x40 ∧
    (NewUUID ⟨buf, none⟩).1.get 8 &&& 0xC0 = 0x80 := by
  obtain ⟨l, hl⟩ := buf
  match l, hl with
  | [b0, b1, b2, b3, b4, b5, b6, b7, b8, b9, b10, b11, b12, b13, b14, b15], _ =>
    refine ⟨rfl, ?_, ?_⟩
    · exact (marker_bits b6).1
    · exact (marker_bits b8).2

/-- C7, as stated, fails: the character U+00E9 written 32 times is exactly
32 characters long once hyphens are removed, yet `ParseUUID` fails on it with
an error matching `ErrInvalidUUIDFormat` and `ErrInvalidUUIDLength` (it is 64
bytes long). -/
theorem C7_counterexample :
    ¬ ((errorsIs (ParseUUID eAcute32).2 (some ErrInvalidUUIDFormat) = true ∧
        errorsIs (ParseUUID eAcute32).2 (some ErrInvalidUUIDLength) = true) ↔
      runeCount (removeHyphens eAcute32) ≠ 32) := by
  decide

/-- C7 (length failure, amended): `ParseUUID(s)` fails with an error matching
both `ErrInvalidUUIDFormat` and `ErrInvalidUUIDLength` if and only if the
string left after removing all hyphens from `s` is not exactly 32 bytes long;
`"12345678-1234-1234-1234"` fails this way. -/
theorem C7_length_failure (s : GoString) :
    ((errorsIs (ParseUUID s).2 (some ErrInvalidUUIDFormat) = true ∧
        errorsIs (ParseUUID s).2 (some ErrInvalidUUIDLength) = true) ↔
      len (removeHyphens s) ≠ 32) ∧
    (errorsIs (ParseUUID (lit "12345678-1234-1234-1234")).2 (some ErrInvalidUUIDFormat) = true ∧
      errorsIs (ParseUUID (lit "12345678-1234-1234-1234")).2 (some ErrInvalidUUIDLength) = true) := by
  refine ⟨?_, by decide, by decide⟩
  unfold len
  rcases ParseUUID_cases s with ⟨h, e⟩ | ⟨h, _, e⟩ | ⟨h, _, e⟩
  · rw [e]
    exact ⟨fun _ => h, fun _ => ⟨by decide, by decide⟩⟩
  · rw [e]
    exact ⟨fun k => absurd k.2 (by decide), fun k => absurd h k⟩
  · rw [e]
    exact ⟨fun k => absurd k.2 (by simp [errorsIs]), fun k => absurd h k⟩

/-- C8, as stated, fails: 31 digits `0` followed by the character U+00E9 are
exactly 32 characters, one of them is not an ASCII hex digit, yet the error of
`ParseUUID` does not match `ErrInvalidUUIDHex` (the text is 33 bytes long and
fails the length check). -/
theorem C8_counterexample :
    ¬ (runeCount (removeHyphens zerosThenEAcute) = 32 →
      ((errorsIs (ParseUUID zerosThenEAcute).2 (some ErrInvalidUUIDFormat) = true ∧
          errorsIs (ParseUUID zerosThenEAcute).2 (some ErrInvalidUUIDHex) = true) ↔
        ∃ r ∈ rangeRunes 0 (removeHyphens zerosThenEAcute), isHexRune r = false)) := by
  decide

/-- C8 (character failure, amended): for every input whose hyphen-stripped
form is exactly 32 bytes long, `ParseUUID` fails with an error matching both
`ErrInvalidUUIDFormat` and `ErrInvalidUUIDHex` if and only if at least one of
those 32 bytes is not an ASCII hex digit. -/
theorem C8_character_failure (s : GoString) (h : len (removeHyphens s) = 32) :
    (errorsIs (ParseUUID s).2 (some ErrInvalidUUIDFormat) = true ∧
        errorsIs (ParseUUID s).2 (some ErrInvalidUUIDHex) = true) ↔
      ∃ b ∈ removeHyphens s, isHexDigit b = false := by
  unfold len at h
  rcases ParseUUID_cases s with ⟨h1, _⟩ | ⟨_, hb, e⟩ | ⟨_, hx, e⟩
  · exact absurd h h1
  · rw [e]
    exact ⟨fun _ => hb, fun _ => ⟨by decide, by decide⟩⟩
  · rw [e]
    refine ⟨fun k => absurd k.2 (by simp [errorsIs]), fun k => ?_⟩
    obtain ⟨b, hb, hb2⟩ := k
    rw [hx b hb] at hb2
    exact Bool.noConfusion hb2

/-- C8 at the input the claim names: `"zz1495AA-CDEF-4042-8123-AABBCCDDEEFF"`
is 32 bytes long without its hyphens and fails with an error matching
`ErrInvalidUUIDFormat` and `ErrInvalidUUIDHex`. -/
theorem C8_character_failure_witness :
    len (removeHyphens (lit "zz1495AA-CDEF-4042-8123-AABBCCDDEEFF")) = 32 ∧
    (errorsIs (ParseUUID (lit "zz1495AA-CDEF-4042-8123-AABBCCDDEEFF")).2
        (some ErrInvalidUUIDFormat) = true ∧
      errorsIs (ParseUUID (lit "zz1495AA-CDEF-4042-8123-AABBCCDDEEFF")).2
        (some ErrInvalidUUIDHex) = true) ∧
    ((errorsIs (ParseUUID (lit "zz1495AA-CDEF-4042-8123-AABBCCDDEEFF")).2
          (some ErrInvalidUUIDFormat) = true ∧
        errorsIs (ParseUUID (lit "zz1495AA-CDEF-4042-8123-AABBCCDDEEFF")).2
          (some ErrInvalidUUIDHex) = true) ↔
      ∃ b ∈ removeHyphens (lit "zz1495AA-CDEF-4042-8123-AABBCCDDEEFF"), isHexDigit b = false) :=
  ⟨by decide, by decide,
    C8_character_failure (lit "zz1495AA-CDEF-4042-8123-AABBCCDDEEFF") (by decide)⟩

/-- C9 (error trichotomy): `ParseUUID` either succeeds, or returns an error
matching `ErrInvalidUUIDFormat` and exactly one of `ErrInvalidUUIDLength` and
`ErrInvalidUUIDHex`; its error never matches `ErrFailedToDecodeUUID`, because
the decoding branch cannot fail: an input that passes the length check and
the character check is decoded by `hex.DecodeString` with the nil error. -/
theorem C9_error_trichotomy (s : GoString) :
    ((ParseUUID s).2 = none ∨
      (errorsIs (ParseUUID s).2 (some ErrInvalidUUIDFormat) = true ∧
        ((errorsIs (ParseUUID s).2 (some ErrInvalidUUIDLength) = true ∧
            errorsIs (ParseUUID s).2 (some ErrInvalidUUIDHex) = false) ∨
          (errorsIs (ParseUUID s).2 (some ErrInvalidUUIDLength) = false ∧
            errorsIs (ParseUUID s).2 (some ErrInvalidUUIDHex) = true)))) ∧
    errorsIs (ParseUUID s).2 (some ErrFailedToDecodeUUID) = false ∧
    (len (ReplaceAll s 0x2d []) ≠ 32 ∨
      (rangeRunes 0 (ReplaceAll s 0x2d [])).any (fun r => !isHexRune r) = true ∨
      (DecodeString (ReplaceAll s 0x2d [])).2 = none) := by
  rw [ReplaceAll_hyphen, rangeRunes_any]
  unfold len DecodeString
  rcases ParseUUID_cases s with ⟨h, e⟩ | ⟨h, ⟨b, hb, hb2⟩, e⟩ | ⟨h, hx, e⟩
  · rw [e]
    exact ⟨Or.inr ⟨by decide, Or.inl ⟨by decide, by decide⟩⟩, by decide, Or.inl h⟩
  · rw [e]
    refine ⟨Or.inr ⟨by decide, Or.inr ⟨by decide, by decide⟩⟩, by decide, Or.inr (Or.inl ?_)⟩
    simp only [List.any_eq_true]
    exact ⟨b, hb, by simp [hb2]⟩
  · rw [e]
    exact ⟨Or.inl rfl, by simp [errorsIs],
      Or.inr (Or.inr (Decode_hex 16 (removeHyphens s) (by omega) hx).1)⟩

/-- C10 (hyphen-agnostic parse): `ParseUUID(s)` returns the same pair (UUID
and error) as `ParseUUID` of `s` with every hyphen removed, so a hyphen
inserted at any position changes nothing; the test string without hyphens and
the string with a hyphen between every two digits both parse to the test
UUID. -/
theorem C10_hyphen_agnostic (s : GoString) :
    ParseUUID s = ParseUUID (removeHyphens s) ∧
    (∀ a b : GoString, ParseUUID (a ++ lit "-" ++ b) = ParseUUID (a ++ b)) ∧
    ParseUUID (lit "331495AACDEF40428123AABBCCDDEEFF") =
      ParseUUID (lit "331495AA-CDEF-4042-8123-AABBCCDDEEFF") ∧
    ParseUUID (lit "331495AA-CDEF-4042-8123-AABBCCDDEEFF") = (testUUID, none) ∧
    ParseUUID (lit "3-3-1-4-9-5-a-a-c-d-e-f-4-0-4-2-8-1-2-3-a-a-b-b-c-c-d-d-e-e-f-f")
      = (testUUID, none) := by
  refine ⟨ParseUUID_congr _ _ (removeHyphens_idem s).symm, ?_, by decide, by decide, by decide⟩
  intro a b
  apply ParseUUID_congr
  have e : removeHyphens (lit "-") = [] := by decide
  rw [removeHyphens_append, removeHyphens_append, removeHyphens_append, e, List.append_nil]

/-- C11 (case insensitivity): replacing any ASCII letters of `s` by their
other-case counterparts does not change the outcome of `ParseUUID`: it
succeeds on one text exactly when it succeeds on the other, and the returned
UUID (and error) is the same.  The upper-case and the lower-case test string
both give the test UUID. -/
theorem C11_case_insensitivity (s : GoString) (mask : List Bool) :
    ((ParseUUID (recase mask s)).2 = none ↔ (ParseUUID s).2 = none) ∧
    (ParseUUID (recase mask s)).1 = (ParseUUID s).1 ∧
    ParseUUID (recase mask s) = ParseUUID s ∧
    recase (List.replicate 36 true) (lit "331495AA-CDEF-4042-8123-AABBCCDDEEFF")
      = lit "331495aa-cdef-4042-8123-aabbccddeeff" ∧
    ParseUUID (lit "331495AA-CDEF-4042-8123-AABBCCDDEEFF") = (testUUID, none) ∧
    ParseUUID (lit "331495aa-cdef-4042-8123-aabbccddeeff") = (testUUID, none) := by
  have e : ParseUUID (recase mask s) = ParseUUID s :=
    (ParseUUID_rel s (recase mask s) (rel_removeHyphens (recase_rel mask s))).symm
  rw [e]
  exact ⟨Iff.rfl, rfl, rfl, by decide, by decide, by decide⟩

/-- C12 (generation touches only the six marker bits): when the random source
succeeds with the bytes `r`, `NewUUID` returns the nil error and `u` with
`u[6] = (r[6] & 0x0F) | 0x40`, `u[8] = (r[8] & 0x3F) | 0x80` and `u[i] = r[i]`
at every other index; the low four bits of byte 6 and the low six bits of
byte 8 are those of `r`. -/
theorem C12_generation_frame (r : UUID) :
    (NewUUID ⟨r, none⟩).2 = none ∧
    (∀ i : Fin 16, (NewUUID ⟨r, none⟩).1.get i.val =
      if i.val = 6 then (r.get 6 &&& 0x0f) ||| 0x40
      else if i.val = 8 then (r.get 8 &&& 0x3f) ||| 0x80
      else r.get i.val) ∧
    (NewUUID ⟨r, none⟩).1.get 6 &&& 0x0f = r.get 6 &&& 0x0f ∧
    (NewUUID ⟨r, none⟩).1.get 8 &&& 0x3f = r.get 8 &&& 0x3f := by
  obtain ⟨l, hl⟩ := r
  match l, hl with
  | [b0, b1, b2, b3, b4, b5, b6, b7, b8, b9, b10, b11, b12, b13, b14, b15], _ =>
    refine ⟨rfl, ?_, (marker_keep b6).1, (marker_keep b8).2⟩
    intro i
    fin_cases i <;> rfl

/-- C13 at a failing random source: whatever error of another package the
random source fails with, the error `NewUUID` returns matches
`ErrFailedToGenerateUUID`, but `errors.Is` of it against the cause is false:
the cause is formatted with `%v` and is not in the `Unwrap` chain.  For the
cause `unexpected EOF` the returned error is the wrapper of
`ErrFailedToGenerateUUID` alone, with the text of the cause in its message. -/
theorem C13_cause_not_wrapped :
    (∀ (buf : UUID) (msg : String),
      errorsIs (NewUUID ⟨buf, some (.foreign msg)⟩).2 (some ErrFailedToGenerateUUID) = true ∧
      errorsIs (NewUUID ⟨buf, some (.foreign msg)⟩).2 (some (.foreign msg)) = false) ∧
    (NewUUID ⟨UUID.zero, some (.foreign "unexpected EOF")⟩).2 =
      some (.wrapError "failed to generate UUID: unexpected EOF" ErrFailedToGenerateUUID) ∧
    errorsIs (NewUUID ⟨UUID.zero, some (.foreign "unexpected EOF")⟩).2
      (some (.foreign "unexpected EOF")) = false := by
  refine ⟨?_, by decide, by decide⟩
  intro buf msg
  simp [NewUUID, errorsIs, GoError.is, errorfWV, ErrFailedToGenerateUUID]

/-- C14 (canonicalisation): whenever `ParseUUID(s)` succeeds with the value
`u`, `u.String()` is the ASCII-lowercased, hyphen-stripped `s` with a hyphen
inserted after its 8th, 12th, 16th and 20th digit; and for every `s` already
in canonical lowercase 8-4-4-4-12 form, `ParseUUID(s)` succeeds and the
`String()` of its value is `s` itself. -/
theorem C14_canonicalisation (s : GoString) :
    ((ParseUUID s).2 = none →
      (ParseUUID s).1.String = insertHyphens ((removeHyphens s).map asciiLower)) ∧
    (isCanonical s = true → (ParseUUID s).2 = none ∧ (ParseUUID s).1.String = s) := by
  have part : (ParseUUID s).2 = none →
      (ParseUUID s).1.String = insertHyphens ((removeHyphens s).map asciiLower) := by
    intro h
    obtain ⟨hl, hx⟩ := (ParseUUID_nil_iff s).mp h
    obtain ⟨e1, e2⟩ := ParseUUID_ok s hl hx
    rw [e1, String_insertHyphens]
    simp only []
    rw [e2, Decode_joinNibbles 16 _ (by omega) hx, hexText_joinNibbles 16 _ (by omega) hx]
  refine ⟨part, ?_⟩
  intro hc
  obtain ⟨hs, hl, hlow⟩ := canonical_form s hc
  have hx : ∀ b ∈ removeHyphens s, isHexDigit b = true :=
    fun b hb => (reverseHexTable_spec b).2.1 (hlow b hb)
  have hok : (ParseUUID s).2 = none := (ParseUUID_nil_iff s).mpr ⟨hl, hx⟩
  refine ⟨hok, ?_⟩
  have hm : (removeHyphens s).map asciiLower = removeHyphens s := by
    conv_rhs => rw [← List.map_id (removeHyphens s)]
    apply List.map_congr_left
    intro b hb
    exact (asciiLower_props b).2 (hlow b hb)
  rw [part hok, hm, ← hs]

/-- C14 at sample inputs: the upper-case test string parses to a UUID whose
`String()` is its lowercased digits regrouped, namely the lower-case test
string, and the lower-case test string is canonical and is returned as it
is. -/
theorem C14_canonicalisation_witness :
    (ParseUUID (lit "331495AA-CDEF-4042-8123-AABBCCDDEEFF")).2 = none ∧
    (ParseUUID (lit "331495AA-CDEF-4042-8123-AABBCCDDEEFF")).1.String =
      insertHyphens ((removeHyphens (lit "331495AA-CDEF-4042-8123-AABBCCDDEEFF")).map asciiLower) ∧
    insertHyphens ((removeHyphens (lit "331495AA-CDEF-4042-8123-AABBCCDDEEFF")).map asciiLower)
      = lit "331495aa-cdef-4042-8123-aabbccddeeff" ∧
    isCanonical (lit "331495aa-cdef-4042-8123-aabbccddeeff") = true ∧
    ((ParseUUID (lit "331495aa-cdef-4042-8123-aabbccddeeff")).2 = none ∧
      (ParseUUID (lit "331495aa-cdef-4042-8123-aabbccddeeff")).1.String
        = lit "331495aa-cdef-4042-8123-aabbccddeeff") :=
  ⟨by decide,
    (C14_canonicalisation (lit "331495AA-CDEF-4042-8123-AABBCCDDEEFF")).1 (by decide),
    by decide, by decide,
    (C14_canonicalisation (lit "331495aa-cdef-4042-8123-aabbccddeeff")).2 (by decide)⟩

/-- C15 (length is measured in bytes): the error of `ParseUUID` matches
`ErrInvalidUUIDLength` exactly when the byte length of the hyphen-stripped
input differs from 32.  The character U+00E9 written 32 times (32 characters,
64 bytes) is rejected with `ErrInvalidUUIDLength`; written 16 times (16
characters, 32 bytes) it passes the length check and is rejected with
`ErrInvalidUUIDHex`. -/
theorem C15_length_in_bytes (s : GoString) :
    (errorsIs (ParseUUID s).2 (some ErrInvalidUUIDLength) = true ↔
      len (removeHyphens s) ≠ 32) ∧
    (runeCount eAcute32 = 32 ∧ removeHyphens eAcute32 = eAcute32 ∧ len eAcute32 = 64 ∧
      errorsIs (ParseUUID eAcute32).2 (some ErrInvalidUUIDLength) = true) ∧
    (runeCount eAcute16 = 16 ∧ removeHyphens eAcute16 = eAcute16 ∧ len eAcute16 = 32 ∧
      errorsIs (ParseUUID eAcute16).2 (some ErrInvalidUUIDLength) = false ∧
      errorsIs (ParseUUID eAcute16).2 (some ErrInvalidUUIDHex) = true) := by
  refine ⟨?_, by decide, by decide⟩
  unfold len
  rcases ParseUUID_cases s with ⟨h, e⟩ | ⟨h, _, e⟩ | ⟨h, _, e⟩
  · rw [e]
    exact ⟨fun _ => h, fun _ => by decide⟩
  · rw [e]
    exact ⟨fun k => absurd k (by decide), fun k => absurd h k⟩
  · rw [e]
    exact ⟨fun k => absurd k (by simp [errorsIs]), fun k => absurd h k⟩

/-- C16 (zero value on failure): whenever `ParseUUID` returns a non-nil error,
the UUID returned with it is the all-zero value. -/
theorem C16_zero_on_failure (s : GoString) (h : (ParseUUID s).2 ≠ none) :
    (ParseUUID s).1 = UUID.zero ∧ (ParseUUID s).1.bytes = List.replicate 16 0 := by
  rcases ParseUUID_cases s with ⟨_, e⟩ | ⟨_, _, e⟩ | ⟨_, _, e⟩
  · rw [e]; exact ⟨rfl, rfl⟩
  · rw [e]; exact ⟨rfl, rfl⟩
  · rw [e] at h
    exact absurd rfl h

/-- C16 at inputs that fail: a text that is too short and a text with a
character that is no hex digit both come back with the all-zero UUID. -/
theorem C16_zero_on_failure_witness :
    (ParseUUID (lit "12345678-1234-1234-1234")).2 ≠ none ∧
    (ParseUUID (lit "12345678-1234-1234-1234")).1 = UUID.zero ∧
    (ParseUUID (lit "12345678-1234-1234-1234")).1.bytes = List.replicate 16 0 ∧
    (ParseUUID (lit "331495AA-CDEF-4042-8123-AABBCCDDEEzz")).2 ≠ none ∧
    (ParseUUID (lit "331495AA-CDEF-4042-8123-AABBCCDDEEzz")).1 = UUID.zero :=
  ⟨by decide, (C16_zero_on_failure _ (by decide)).1, (C16_zero_on_failure _ (by decide)).2,
    by decide, by decide⟩

end UUIDSpec
